import Mathlib

/-!
Verification of the sessionbase CLI platform-adapter layer.

The definitions below are a shallow embedding of the TypeScript source:
JSON values become an inductive `Json` type, `JSON.parse` becomes a
fuel-based recursive-descent parser over the character list, and the
pure session-handling functions (`generatePreview`, `parseJsonlFile`,
`validateCheckpointAge`, `buildSessionPayload`, ...) become Lean
functions over these data.  Stateful aspects (TTY flags, the interactive
answer typed by the user, the file modification age) are passed as
explicit parameters.  JSON numeric literals are modelled as integers;
none of the verified properties depend on fractional numbers.
-/

namespace SessionBase

/-- JSON value model (numbers as integers). -/
inductive Json where
  | null : Json
  | bool : Bool → Json
  | num : Int → Json
  | str : String → Json
  | arr : List Json → Json
  | obj : List (String × Json) → Json
deriving Repr, Inhabited

namespace Json

/-- Property lookup `v[k]` on an object (first binding wins), `undefined` otherwise. -/
def getField : Json → String → Option Json
  | .obj fields, k => (fields.find? (fun p => p.1 == k)).map Prod.snd
  | _, _ => none

/-- JavaScript truthiness of a value ( `undefined` is handled by `Option`). -/
def truthy : Json → Bool
  | .null => false
  | .bool b => b
  | .num n => n != 0
  | .str s => s != ""
  | .arr _ => true
  | .obj _ => true

/-- Optional-chaining property access `v?.k` that also demands the result be truthy,
modelling the `a?.b && ...` / `if (a?.b)` guards the source uses. -/
def getTruthy (j : Json) (k : String) : Option Json :=
  match j.getField k with
  | some v => if v.truthy then some v else none
  | none => none

/-- Array index access `v?.[i]`. -/
def index : Json → Nat → Option Json
  | .arr elems, i => elems.get? i
  | _, _ => none

/-- Extract a string value (other shapes give `none`). -/
def asString : Json → Option String
  | .str s => some s
  | _ => none

end Json

/-- Whitespace characters matched by JavaScript `\s` (ASCII portion). -/
def isJsWS (c : Char) : Bool :=
  c = ' ' || c = '\t' || c = '\n' || c = '\r' || c = '\x0b' || c = '\x0c'

/-- The `String.prototype.trim`: drop whitespace from both ends. -/
def jsTrimList (l : List Char) : List Char :=
  ((l.dropWhile isJsWS).reverse.dropWhile isJsWS).reverse

/-- The `content.trim()` on strings. -/
def jsTrim (s : String) : String :=
  ⟨jsTrimList s.data⟩

/-- The `s.toLowerCase()` (ASCII). -/
def jsToLower (s : String) : String :=
  ⟨s.data.map Char.toLower⟩

/-- The `s.split(sep)` for a single-character separator, as a structural recursion
over the character list (JavaScript's split never returns an empty array). -/
def splitOnChar (sep : Char) : List Char → List (List Char)
  | [] => [[]]
  | c :: cs =>
    match splitOnChar sep cs with
    | [] => if c = sep then [[], []] else [[c]]
    | h :: t => if c = sep then [] :: h :: t else (c :: h) :: t

/-- String-level `s.split(sep)`. -/
def jsSplit (sep : Char) (s : String) : List String :=
  (splitOnChar sep s.data).map (fun l => (⟨l⟩ : String))

section Parser

/-- Skip JSON whitespace. -/
def skipWs (cs : List Char) : List Char :=
  cs.dropWhile (fun c => c = ' ' || c = '\t' || c = '\n' || c = '\r')

/-- Parse the body of a JSON string literal after the opening quote.
Supports the escapes the session files use. -/
def parseStringBody : List Char → Option (List Char × List Char)
  | [] => none
  | '"' :: rest => some ([], rest)
  | '\\' :: e :: rest =>
    let esc : Option Char :=
      if e = '"' then some '"'
      else if e = '\\' then some '\\'
      else if e = '/' then some '/'
      else if e = 'n' then some '\n'
      else if e = 't' then some '\t'
      else if e = 'r' then some '\r'
      else none
    match esc with
    | none => none
    | some c =>
      match parseStringBody rest with
      | some (body, rem) => some (c :: body, rem)
      | none => none
  | '\\' :: [] => none
  | c :: rest =>
    if c = '"' || c = '\\' then none
    else
      match parseStringBody rest with
      | some (body, rem) => some (c :: body, rem)
      | none => none

/-- Parse a run of decimal digits. -/
def parseDigits : List Char → Option (Nat × List Char)
  | cs =>
    let digits := cs.takeWhile Char.isDigit
    if digits.isEmpty then none
    else some (digits.foldl (fun acc c => acc * 10 + (c.toNat - '0'.toNat)) 0,
               cs.dropWhile Char.isDigit)

/-- Parse an (integer) JSON number literal. -/
def parseNumberLit (cs : List Char) : Option (Int × List Char) :=
  match cs with
  | '-' :: rest =>
    match parseDigits rest with
    | some (n, rem) => some (-(n : Int), rem)
    | none => none
  | _ =>
    match parseDigits cs with
    | some (n, rem) => some ((n : Int), rem)
    | none => none

mutual

/-- Fuel-based recursive-descent JSON value parser modelling `JSON.parse`. -/
def parseVal : Nat → List Char → Option (Json × List Char)
  | 0, _ => none
  | Nat.succ fuel, cs =>
    match skipWs cs with
    | [] => none
    | c :: rest =>
      if c = '"' then
        match parseStringBody rest with
        | some (body, rem) => some (.str ⟨body⟩, rem)
        | none => none
      else if c = '\x7b' then
        parseObjFields fuel (skipWs rest) true
      else if c = '[' then
        parseArrElems fuel (skipWs rest) true
      else if c = 't' then
        match rest with
        | 'r' :: 'u' :: 'e' :: rem => some (.bool true, rem)
        | _ => none
      else if c = 'f' then
        match rest with
        | 'a' :: 'l' :: 's' :: 'e' :: rem => some (.bool false, rem)
        | _ => none
      else if c = 'n' then
        match rest with
        | 'u' :: 'l' :: 'l' :: rem => some (.null, rem)
        | _ => none
      else
        match parseNumberLit (c :: rest) with
        | some (n, rem) => some (.num n, rem)
        | none => none

/-- Parse object members; `first` is true before any member has been read. -/
def parseObjFields : Nat → List Char → Bool → Option (Json × List Char)
  | 0, _, _ => none
  | Nat.succ fuel, cs, first =>
    match cs with
    | '\x7d' :: rem =>
      if first then some (.obj [], rem) else none
    | '"' :: rest =>
      match parseStringBody rest with
      | none => none
      | some (key, afterKey) =>
        match skipWs afterKey with
        | ':' :: afterColon =>
          match parseVal fuel afterColon with
          | none => none
          | some (v, afterVal) =>
            match skipWs afterVal with
            | ',' :: afterComma =>
              match parseObjFields fuel (skipWs afterComma) false with
              | some (.obj fields, rem) => some (.obj ((⟨key⟩, v) :: fields), rem)
              | _ => none
            | '\x7d' :: rem => some (.obj [(⟨key⟩, v)], rem)
            | _ => none
        | _ => none
    | _ => none

/-- Parse array elements; `first` is true before any element has been read. -/
def parseArrElems : Nat → List Char → Bool → Option (Json × List Char)
  | 0, _, _ => none
  | Nat.succ fuel, cs, first =>
    match cs with
    | ']' :: rem =>
      if first then some (.arr [], rem) else none
    | _ =>
      match parseVal fuel cs with
      | none => none
      | some (v, afterVal) =>
        match skipWs afterVal with
        | ',' :: afterComma =>
          match parseArrElems fuel (skipWs afterComma) false with
          | some (.arr elems, rem) => some (.arr (v :: elems), rem)
          | _ => none
        | ']' :: rem => some (.arr [v], rem)
        | _ => none

end

/-- The `JSON.parse`: parse a complete JSON document, requiring only trailing whitespace. -/
def parseJson (s : String) : Option Json :=
  match parseVal (s.length + 1) s.data with
  | some (v, rest) => if skipWs rest = [] then some v else none
  | none => none

end Parser

/-! ## SessionUtils (src/utils/session-utils.ts) -/

/-- The `text.replace(/\n/g, ' ')`. -/
def replaceNewlines (l : List Char) : List Char :=
  l.map (fun c => if c = '\n' then ' ' else c)

/-- Worker for `replace(/\s+/g, ' ')`: `afterWS` records whether the previous
input character belonged to a whitespace run that has already emitted its ' '. -/
def collapseWSAux : Bool → List Char → List Char
  | _, [] => []
  | afterWS, c :: cs =>
    if isJsWS c then
      if afterWS then collapseWSAux true cs
      else ' ' :: collapseWSAux true cs
    else c :: collapseWSAux false cs

/-- The `text.replace(/\s+/g, ' ')`: each maximal whitespace run becomes one space. -/
def collapseWS (l : List Char) : List Char :=
  collapseWSAux false l

/-- The `cleanedText` computed by `generatePreview`:
`text.replace(/\n/g, ' ').replace(/\s+/g, ' ').trim()`. -/
def cleanList (l : List Char) : List Char :=
  jsTrimList (collapseWS (replaceNewlines l))

/-- String-level whitespace collapsing (the `cleanedText` of the source). -/
def collapsedWhitespace (s : String) : String :=
  ⟨cleanList s.data⟩

/-- The `SessionUtils.generatePreview`: collapse whitespace, return as-is when at
most 100 characters, otherwise truncate to 100 characters and append "...". -/
def generatePreview (text : String) : String :=
  let cleanedText := cleanList text.data
  if cleanedText.length ≤ 100 then ⟨cleanedText⟩
  else ⟨cleanedText.take 100 ++ ("...".data)⟩

/-- The `content.trim().split('\n').filter(line => line.trim())` from `parseJsonlFile`. -/
def jsonlLines (content : String) : List String :=
  (jsSplit '\n' (jsTrim content)).filter (fun line => jsTrim line ≠ "")

/-- The `lines.map((line, index) => ...)` loop of `parseJsonlFile`: parse each
line, throwing on the first line that `JSON.parse` rejects.  `i` is the index
of the first remaining line. -/
def parseJsonlLinesFrom (filePath : String) (i : Nat) : List String → Except String (List Json)
  | [] => .ok []
  | line :: rest =>
    match parseJson line with
    | some v =>
      match parseJsonlLinesFrom filePath (i + 1) rest with
      | .ok vs => .ok (v :: vs)
      | .error e => .error e
    | none => .error ("Invalid JSON on line " ++ toString (i + 1) ++ " in file " ++ filePath)

/-- The `SessionUtils.parseJsonlFile`: split into non-blank lines, throw on an empty
file, parse every line (throwing on the first malformed one). -/
def parseJsonlFile (filePath content : String) : Except String (List Json) :=
  let lines := jsonlLines content
  if lines.length = 0 then .error ("Empty session file: " ++ filePath)
  else parseJsonlLinesFrom filePath 0 lines

/-! ## Claude Code provider (src/platforms/claude-code.ts) -/

/-- Result of `ClaudeCodeProvider.parseSession` (the date-stamped default title
is an impure detail and not modelled). -/
structure ClaudeSession where
  messages : List Json
  messageCount : Nat
  sessionId : Option Json
  cwd : Option Json

/-- The `ClaudeCodeProvider.parseSession`: parse the JSONL file, take every entry as
a message, `messageCount` is the entry count, metadata comes from the first entry. -/
def claudeParseSession (filePath content : String) : Except String ClaudeSession :=
  match parseJsonlFile filePath content with
  | .error e => .error e
  | .ok entries =>
    .ok { messages := entries
          messageCount := entries.length
          sessionId := entries.head?.bind (fun e => e.getField "sessionId")
          cwd := entries.head?.bind (fun e => e.getField "cwd") }

/-- The `ClaudeCodeProvider.encodeProjectPath`: `path.replace(/\//g, '-')`. -/
def encodeProjectPath (path : String) : String :=
  ⟨path.data.map (fun c => if c = '/' then '-' else c)⟩

/-- The `ClaudeCodeProvider.decodeProjectPath`: replace every dash with a slash. -/
def decodeProjectPath (encodedPath : String) : String :=
  ⟨encodedPath.data.map (fun c => if c = '-' then '/' else c)⟩

/-! ## Gemini CLI provider (src/platforms/gemini-cli.ts) -/

/-- The `GeminiCliProvider.formatFileAge`: render a millisecond age as days, hours
or minutes (JS `Math.floor` on nonnegative inputs is flooring division). -/
def formatFileAge (fileAge : Int) : String :=
  let minutesOld := Int.fdiv fileAge (60 * 1000)
  let hoursOld := Int.fdiv fileAge (60 * 60 * 1000)
  let daysOld := Int.fdiv fileAge (24 * 60 * 60 * 1000)
  if daysOld > 0 then
    toString daysOld ++ " day" ++ (if daysOld ≠ 1 then "s" else "")
  else if hoursOld > 0 then
    toString hoursOld ++ " hour" ++ (if hoursOld ≠ 1 then "s" else "")
  else
    toString minutesOld ++ " minute" ++ (if minutesOld ≠ 1 then "s" else "")

/-- Outcome of the Gemini checkpoint locator: the chosen file, a user
cancellation (`return null`), or a thrown error. -/
inductive CheckpointDecision where
  | proceed (filePath : String)
  | cancelled
  | failure (message : String)

/-- The `GeminiCliProvider.handleStaleCheckpoint`: outside a TTY throw an error that
names the age; in a TTY ask, proceeding only on a "y"/"yes" answer. -/
def handleStaleCheckpoint (filePath ageDescription : String)
    (stdinTTY stdoutTTY : Bool) (answer : String) : CheckpointDecision :=
  if !stdinTTY || !stdoutTTY then
    .failure ("Checkpoint is " ++ ageDescription ++
      " old. Use --force to proceed or create fresh checkpoint with \"/chat save\".")
  else
    let a := jsToLower (jsTrim answer)
    if a = "y" || a = "yes" then .proceed filePath else .cancelled

/-- The `GeminiCliProvider.validateCheckpointAge`: gate checkpoints older than ten
minutes unless `--force` was given.  `fileAge` is `now - mtime` in ms; the TTY
flags and the interactive answer are passed explicitly. -/
def validateCheckpointAge (filePath : String) (fileAge : Int) (force : Bool)
    (stdinTTY stdoutTTY : Bool) (answer : String) : CheckpointDecision :=
  let tenMinutesInMs : Int := 10 * 60 * 1000
  if fileAge > tenMinutesInMs && !force then
    handleStaleCheckpoint filePath (formatFileAge fileAge) stdinTTY stdoutTTY answer
  else
    .proceed filePath

/-- The `msg.role === r` for a parsed message object. -/
def roleIs (msg : Json) (r : String) : Bool :=
  match msg.getField "role" with
  | some (.str s) => s == r
  | _ => false

/-- The `msg.parts?.[0]?.<field>` is truthy. -/
def partHasTruthyField (msg : Json) (field : String) : Bool :=
  match ((msg.getField "parts").bind (fun p => p.index 0)).bind (fun p0 => p0.getField field) with
  | some v => v.truthy
  | none => false

/-- The `GeminiCliProvider.filterActualMessages`: drop entries that are a user-role
function response (`msg.role === 'user' && msg.parts?.[0]?.functionResponse`). -/
def filterActualMessages (messages : List Json) : List Json :=
  messages.filter (fun msg => !(roleIs msg "user" && partHasTruthyField msg "functionResponse"))

/-- The `messageCount` of `GeminiCliProvider.parseSession`. -/
def geminiMessageCount (data : List Json) : Nat :=
  (filterActualMessages data).length

/-- The tool-call count of `parseGeminiSessionMetadata`:
`data.filter(msg => msg.role === 'model' && msg.parts?.[0]?.functionCall).length`. -/
def geminiToolCalls (data : List Json) : Nat :=
  (data.filter (fun msg => roleIs msg "model" && partHasTruthyField msg "functionCall")).length

/-! ## Platform registry (detectProvider) -/

/-- The platforms registered in the `PlatformRegistry` constructor, in
registration order. -/
inductive SupportedPlatform where
  | claudeCode
  | geminiCli
  | qchat
deriving Repr, DecidableEq

/-- Modelled from the spec: `ClaudeCodeProvider.validateFile` is declared on the
base provider and called by the registry, but its implementation is not in src.
Per the spec, the line-delimited transcript format is one JSON object per line
with session identity and working directory read from the first line's fields. -/
def claudeCodeValidateFile (content : String) : Bool :=
  let lines := jsonlLines content
  match lines with
  | [] => false
  | first :: _ =>
    (lines.all (fun l =>
      match parseJson l with
      | some (.obj _) => true
      | _ => false)) &&
    (match parseJson first with
     | some j => (j.getField "sessionId").isSome && (j.getField "cwd").isSome
     | none => false)

/-- Modelled from the spec: `GeminiCliProvider.validateFile` is not in src.  The
structural shape mirrors the in-src content detection of `parseFileContent`
(push.ts): a JSON array containing role-tagged (`user`/`model`) messages with a
`parts` array carrying `text`, `functionCall` or `functionResponse` entries. -/
def geminiCliValidateFile (content : String) : Bool :=
  match parseJson content with
  | some (.arr elems) =>
    !elems.isEmpty &&
    elems.any (fun msg =>
      (roleIs msg "user" || roleIs msg "model") &&
      (match msg.getField "parts" with
       | some (.arr parts) =>
         parts.any (fun part =>
           (part.getTruthy "text").isSome || (part.getTruthy "functionCall").isSome ||
           (part.getTruthy "functionResponse").isSome)
       | _ => false))
  | _ => false

/-- Modelled from the spec: `QChatProvider.validateFile` is not in src.  The
structural shape mirrors the in-src content detection of `parseFileContent`
(push.ts): a JSON object with a `conversation_id` and a `history` array. -/
def qchatValidateFile (content : String) : Bool :=
  match parseJson content with
  | some j =>
    (j.getTruthy "conversation_id").isSome &&
    (match j.getField "history" with
     | some (.arr _) => true
     | _ => false)
  | none => false

/-- The `PlatformRegistry.detectProvider`: probe each registered provider's
structural validator in registration order and return the first that accepts;
`null` when none match. -/
def detectProvider (content : String) : Option SupportedPlatform :=
  if claudeCodeValidateFile content then some .claudeCode
  else if geminiCliValidateFile content then some .geminiCli
  else if qchatValidateFile content then some .qchat
  else none

/-! ## Pull command (src/commands/pull.ts) -/

/-- The `answer.toLowerCase() === 'y' || answer.toLowerCase() === 'yes'`. -/
def isYesAnswer (answer : String) : Bool :=
  jsToLower answer = "y" || jsToLower answer = "yes"

/-- The `s.split('/').pop()`. -/
def popPathSegment (s : String) : Option String :=
  (jsSplit '/' s).getLast?

/-- Observable outcome of `validateSessionContext`: whether the user was
prompted, and the returned continue/cancel decision. -/
structure ContextValidationResult where
  prompted : Bool
  shouldContinue : Bool
deriving Repr, DecidableEq

/-- The `validateSessionContext` (pull.ts): compare the first message's recorded
`cwd` with the target directory.  A matching final path segment proceeds
without confirmation; otherwise the user is prompted and anything but
"y"/"yes" cancels.  The interactive answer is passed explicitly. -/
def validateSessionContext (messages : List Json) (targetDir : String)
    (answer : String) : ContextValidationResult :=
  match messages with
  | [] => ⟨false, true⟩
  | first :: _ =>
    let originalCwd := (first.getField "cwd").bind Json.asString
    match originalCwd with
    | some cwd =>
      if cwd ≠ "" && cwd ≠ targetDir then
        if popPathSegment cwd = popPathSegment targetDir then ⟨false, true⟩
        else ⟨true, isYesAnswer answer⟩
      else ⟨false, true⟩
    | none => ⟨false, true⟩

/-! ## Push command payload builder (src/commands/push.ts) -/

/-- JavaScript `a || b` for an optional string: the fallback is used when the
value is absent or empty (falsy). -/
def jsOrStr (o : Option String) (d : String) : String :=
  match o with
  | some s => if s ≠ "" then s else d
  | none => d

/-- The `options.tags.split(',').map(t => t.trim())`. -/
def splitTags (tags : String) : List String :=
  (jsSplit ',' tags).map jsTrim

/-- The canonical session shape (`SessionData`): known fields plus the raw
passthrough fields a spread (`...data`) carries along. -/
structure SessionData where
  platform : String
  title : Option String := none
  summary : Option String := none
  tags : Option (List String) := none
  messages : Option (List Json) := none
  history : Option (List Json) := none
  sessionId : Option String := none
  cwd : Option String := none
  tokenCount : Option Nat := none
  messageCount : Option Nat := none
  modelName : Option String := none
  model : Option String := none
  raw : List (String × Json) := []

/-- Caller-supplied push options. -/
structure PushOptions where
  isPrivate : Bool := false
  title : Option String := none
  summary : Option String := none
  tags : Option String := none

/-- The Q Chat branch of the payload: `{...sessionData}` (kept whole in
`session`) plus the metadata fields that the object literal overrides. -/
structure QChatPayload where
  session : SessionData
  isPrivate : Bool
  title : String
  summary : String
  tags : List String
  messageCount : Nat
  modelName : String

/-- The flat messages-based payload branch. -/
structure FlatPayload where
  messages : Option (List Json)
  isPrivate : Bool
  title : String
  summary : String
  tags : List String
  tokenCount : Nat
  messageCount : Nat
  modelName : String
  platform : String
  sessionId : Option String
  cwd : Option String

/-- The built upload payload. -/
inductive Payload where
  | qchat : QChatPayload → Payload
  | flat : FlatPayload → Payload

/-- Resolve the `tags` payload field:
`options.tags ? options.tags.split(',').map(trim) : (sessionData.tags || [])`. -/
def resolveTags (options : PushOptions) (sessionData : SessionData) : List String :=
  match options.tags with
  | some t => if t ≠ "" then splitTags t else sessionData.tags.getD []
  | none => sessionData.tags.getD []

/-- The `buildSessionPayload` (push.ts): sessions tagged `q-chat` are spread
wholesale with overridden metadata and `messageCount` set from the history
length; every other platform produces the flat messages-based payload, with
`sessionId`/`cwd` included only when truthy. -/
def buildSessionPayload (sessionData : SessionData) (options : PushOptions) : Payload :=
  if sessionData.platform = "q-chat" then
    .qchat
      { session := sessionData
        isPrivate := options.isPrivate
        title := jsOrStr options.title (jsOrStr sessionData.title "Untitled Session")
        summary := jsOrStr options.summary (jsOrStr sessionData.summary "")
        tags := resolveTags options sessionData
        messageCount := match sessionData.history with
          | some h => h.length
          | none => 0
        modelName := jsOrStr sessionData.model "unknown" }
  else
    .flat
      { messages := sessionData.messages
        isPrivate := options.isPrivate
        title := jsOrStr options.title (jsOrStr sessionData.title "Untitled Session")
        summary := jsOrStr options.summary (jsOrStr sessionData.summary "")
        tags := resolveTags options sessionData
        tokenCount := sessionData.tokenCount.getD 0
        messageCount := match sessionData.messages with
          | some m => m.length
          | none => 0
        modelName := jsOrStr sessionData.modelName "unknown"
        platform := sessionData.platform
        sessionId := match sessionData.sessionId with
          | some s => if s ≠ "" then some s else none
          | none => none
        cwd := match sessionData.cwd with
          | some s => if s ≠ "" then some s else none
          | none => none }

/-! ## Q Chat provider (src/platforms/q-chat.ts) -/

/-- Extract an optional string field of a raw conversation object. -/
def optStrField (data : Json) (k : String) : Option String :=
  (data.getField k).bind Json.asString

/-- Extract an optional array field of a raw conversation object. -/
def optArrField (data : Json) (k : String) : Option (List Json) :=
  match data.getField k with
  | some (.arr l) => some l
  | _ => none

/-- Stand-in for the date-stamped `generateDefaultTitle()` of the source (the
date is an impure detail). -/
def qchatDefaultTitle : String := "Amazon Q Chat Session"

/-- The `QChatProvider.calculateMessageCount`:
`data.history ? data.history.length * 2 : 0`. -/
def calculateMessageCount (data : Json) : Nat :=
  match optArrField data "history" with
  | some h => h.length * 2
  | none => 0

/-- The `QChatProvider.parseSession`: spread the raw conversation data, tag the
platform, and derive title / message count / model name. -/
def qchatParseSession (data : Json) : SessionData :=
  { platform := "q-chat"
    title := some (jsOrStr (optStrField data "title") qchatDefaultTitle)
    summary := optStrField data "summary"
    tags := none
    messages := optArrField data "messages"
    history := optArrField data "history"
    sessionId := optStrField data "sessionId"
    cwd := optStrField data "cwd"
    tokenCount := none
    messageCount := some (calculateMessageCount data)
    modelName := some (jsOrStr (optStrField data "model") "unknown")
    model := optStrField data "model"
    raw := match data with
      | .obj fields => fields
      | _ => [] }

/-- Truthiness of a possibly-absent JavaScript value (`!x` guards). -/
def optTruthy : Option Json → Bool
  | none => false
  | some v => v.truthy

/-- The `QChatProvider.extractUserMessage`: a 2-element (or longer) array turn gives
its first element; an object turn gives its truthy `user` field; anything else
gives null. -/
def extractUserMessage : Json → Option Json
  | .arr (a :: _ :: _) => some a
  | .obj fields => (Json.obj fields).getTruthy "user"
  | _ => none

/-- The `QChatProvider.extractQChatPromptText`:
`userMessage?.content?.Prompt?.prompt || null` (prompts are strings). -/
def extractQChatPromptText (userMessage : Json) : Option String :=
  match ((userMessage.getField "content").bind (fun c => c.getField "Prompt")).bind
      (fun p => p.getField "prompt") with
  | some (.str s) => if s ≠ "" then some s else none
  | _ => none

/-- The loop body of `parseQConversationMetadata`: accumulate the message count
and the first non-empty prompt preview over the turn history. -/
def qTurnFold : List Json → Nat → String → Nat × String
  | [], count, preview => (count, preview)
  | turn :: rest, count, preview =>
    let um := extractUserMessage turn
    if !optTruthy um then qTurnFold rest count preview
    else
      let preview' :=
        if preview = "" then
          match um.bind extractQChatPromptText with
          | some text => generatePreview text
          | none => preview
        else preview
      qTurnFold rest (count + 2) preview'

/-- The `QChatProvider.parseQConversationMetadata` (message count and first-message
preview; `lastActivity` is `Date.now()` and not modelled). -/
def parseQConversationMetadata (conversationData : Json) : Nat × String :=
  let history := match conversationData.getTruthy "history" with
    | some (.arr h) => h
    | _ => []
  qTurnFold history 0 ""

/-- A turn in the legacy 2-element-array shape. -/
def legacyTurn (u a : Json) : Json := .arr [u, a]

/-- A turn in the named `{user, assistant}` shape. -/
def namedTurn (u a : Json) : Json := .obj [("user", u), ("assistant", a)]

/-- A conversation object holding the given turn history. -/
def mkConversation (turns : List Json) : Json :=
  .obj [("conversation_id", .str "c1"), ("history", .arr turns)]

/-! ## Session listing (sortSessionsByModified and the providers' listSessions) -/

/-- The listing projection (`SessionInfo`); `lastModified` is the epoch-ms
timestamp `Date.getTime()` returns. -/
structure SessionInfo where
  id : String
  filePath : String
  projectPath : String
  lastModified : Nat
  messageCount : Nat
  platform : String

/-- The comparator `(a, b) => a.lastModified.getTime() - b.lastModified.getTime()`
viewed as a ≤-test. -/
def sessionLe (a b : SessionInfo) : Bool :=
  a.lastModified ≤ b.lastModified

/-- The `SessionUtils.sortSessionsByModified`: sort by modification time, oldest
first (modelled with a stable merge sort, as V8's `Array.sort` is stable). -/
def sortSessionsByModified (sessions : List SessionInfo) : List SessionInfo :=
  sessions.mergeSort sessionLe

/-- The `ClaudeCodeProvider.listSessions` after the filesystem scan: the scanned
sessions are returned through `sortSessionsByModified`. -/
def claudeListSessions (scanned : List SessionInfo) : List SessionInfo :=
  sortSessionsByModified scanned

/-- The `GeminiCliProvider.listSessions` after the scan (same sort). -/
def geminiListSessions (scanned : List SessionInfo) : List SessionInfo :=
  sortSessionsByModified scanned

/-- The `QChatProvider.listSessions` after the database scan (same sort). -/
def qchatListSessions (scanned : List SessionInfo) : List SessionInfo :=
  sortSessionsByModified scanned

/-- The `CodexProvider.listSessions` after the scan (same sort). -/
def codexListSessions (scanned : List SessionInfo) : List SessionInfo :=
  sortSessionsByModified scanned

/-! ## Auxiliary predicates and example data used by the theorems -/

/-- No two adjacent whitespace characters. -/
def noAdjWS : List Char → Prop
  | [] => True
  | [_] => True
  | a :: b :: rest => ¬(isJsWS a = true ∧ isJsWS b = true) ∧ noAdjWS (b :: rest)

/-- Encode a turn in either of the two accepted shapes: `true` gives the legacy
2-element array, `false` the named object. -/
def encodeTurn (legacy : Bool) (u a : Json) : Json :=
  if legacy then legacyTurn u a else namedTurn u a

/-- Message count as the spec sentence words it for the Gemini adapter:
exclude both function-call and function-response message shapes. -/
def specGeminiMessageCount (data : List Json) : Nat :=
  (data.filter (fun msg =>
    !(partHasTruthyField msg "functionCall" || partHasTruthyField msg "functionResponse"))).length

/-- A JSONL transcript with two valid lines around one corrupt line. -/
def corruptJsonlContent : String :=
  "\x7b\"a\":1\x7d\nnot json\n\x7b\"b\":2\x7d"

/-- A JSONL transcript whose two lines are both valid. -/
def validJsonlContent : String :=
  "\x7b\"sessionId\":\"s1\",\"cwd\":\"/home/u/proj\"\x7d\n\x7b\"b\":2\x7d"

/-- A valid Claude Code line-delimited transcript. -/
def claudeFileContent : String :=
  "\x7b\"sessionId\":\"s1\",\"cwd\":\"/home/u/proj\",\"message\":\x7b\"role\":\"user\",\"content\":\"hi\"\x7d\x7d\n\x7b\"sessionId\":\"s1\",\"cwd\":\"/home/u/proj\",\"message\":\x7b\"role\":\"assistant\",\"content\":\"hello\"\x7d\x7d"

/-- A valid Gemini CLI checkpoint (one JSON array of role/parts messages). -/
def geminiFileContent : String :=
  "[\x7b\"role\":\"user\",\"parts\":[\x7b\"text\":\"hi\"\x7d]\x7d,\x7b\"role\":\"model\",\"parts\":[\x7b\"text\":\"hello\"\x7d]\x7d]"

/-- A valid Q Chat conversation export (object with conversation id and history). -/
def qchatFileContent : String :=
  "\x7b\"conversation_id\":\"abc\",\"history\":[[\x7b\"content\":\x7b\"Prompt\":\x7b\"prompt\":\"hi\"\x7d\x7d\x7d,\x7b\"Response\":\x7b\"content\":\"hello\"\x7d\x7d]]\x7d"

/-- A file matching no supported platform format. -/
def nonSessionContent : String :=
  "\x7b\"foo\":1,\"bar\":[2,3]\x7d"

/-- A Gemini checkpoint holding a user text message, a model function call, a
user function response and a model text message. -/
def geminiExampleMessages : List Json :=
  [Json.obj [("role", Json.str "user"),
             ("parts", Json.arr [Json.obj [("text", Json.str "hi")]])],
   Json.obj [("role", Json.str "model"),
             ("parts", Json.arr [Json.obj [("functionCall", Json.obj [("name", Json.str "f")])]])],
   Json.obj [("role", Json.str "user"),
             ("parts", Json.arr [Json.obj [("functionResponse", Json.obj [("name", Json.str "f")])]])],
   Json.obj [("role", Json.str "model"),
             ("parts", Json.arr [Json.obj [("text", Json.str "done")]])]]

/-- A raw Q Chat conversation row with one turn of history. -/
def qchatExampleData : Json :=
  Json.obj [("conversation_id", Json.str "abc"),
            ("model", Json.str "CLAUDE_SONNET_4_20250514_V1_0"),
            ("history", Json.arr
              [Json.arr [Json.obj [("content", Json.obj [("Prompt",
                           Json.obj [("prompt", Json.str "hi")])])],
                         Json.obj [("Response", Json.obj [("content", Json.str "hello")])]]])]

/-- A non-Q-Chat session carrying a flat message list. -/
def claudeExampleSession : SessionData :=
  { platform := "claude-code"
    messages := some [Json.obj [("type", Json.str "user")], Json.obj [("type", Json.str "assistant")]]
    sessionId := some "s1"
    cwd := some "/home/u/proj"
    tokenCount := some 42 }

/-! # Theorems -/

/-- Mapping the encode step then the decode step is the identity on characters
other than the dash. -/
theorem map_decode_encode (l : List Char) (h : ∀ c ∈ l, c ≠ '-') :
    (l.map (fun c => if c = '/' then '-' else c)).map (fun c => if c = '-' then '/' else c) = l := by
  induction l with
  | nil => rfl
  | cons c cs ih =>
    have hc : c ≠ '-' := h c (List.mem_cons_self _ _)
    have ihc := ih (fun d hd => h d (List.mem_cons_of_mem _ hd))
    by_cases hslash : c = '/'
    · subst hslash
      simp [ihc]
    · simp [hslash, hc, ihc]

/-- C9 (amended): the Claude Code project-path encoding round-trips exactly on
paths that contain no dash character; on paths with a dash, decoding maps the
dash to a slash and the round-trip fails (see the counterexample). -/
theorem encodeProjectPath_roundtrip_no_dash (p : String) (h : ∀ c ∈ p.data, c ≠ '-') :
    decodeProjectPath (encodeProjectPath p) = p := by
  unfold decodeProjectPath encodeProjectPath
  cases p with
  | mk data =>
    show String.mk ((data.map _).map _) = String.mk data
    rw [map_decode_encode data h]

/-- C9 (counterexample): for the absolute path "/a-b" the decode of the encode
is "/a/b", so the round-trip claim fails on paths containing a dash. -/
theorem encodeProjectPath_roundtrip_counterexample :
    decodeProjectPath (encodeProjectPath "/a-b") = "/a/b"
    ∧ decodeProjectPath (encodeProjectPath "/a-b") ≠ "/a-b" := by
  exact ⟨rfl, by decide⟩

/-- C9 (witness): the round-trip holds at the dash-free path "/a/b/project". -/
theorem encodeProjectPath_roundtrip_witness :
    decodeProjectPath (encodeProjectPath "/a/b/project") = "/a/b/project" :=
  encodeProjectPath_roundtrip_no_dash "/a/b/project" (by decide)

/-- C2: a checkpoint at most ten minutes old is returned unconditionally
(independent of TTY state and of any interactive answer, i.e. without
prompting); an older checkpoint with no force flag and a missing stdin or
stdout TTY makes the locator throw an error whose message contains the
human-readable age. -/
theorem validateCheckpointAge_spec (filePath : String) (fileAge : Int)
    (force stdinTTY stdoutTTY : Bool) (answer : String) :
    (fileAge ≤ 10 * 60 * 1000 →
      validateCheckpointAge filePath fileAge force stdinTTY stdoutTTY answer = .proceed filePath)
    ∧ (10 * 60 * 1000 < fileAge → force = false →
       (stdinTTY = false ∨ stdoutTTY = false) →
      validateCheckpointAge filePath fileAge force stdinTTY stdoutTTY answer =
        .failure ("Checkpoint is " ++ formatFileAge fileAge ++
          " old. Use --force to proceed or create fresh checkpoint with \"/chat save\".")) := by
  constructor
  · intro hage
    simp only [validateCheckpointAge]
    split
    · next hcond =>
      exfalso
      simp only [Bool.and_eq_true, decide_eq_true_eq] at hcond
      omega
    · rfl
  · intro hage hforce htty
    subst hforce
    simp only [validateCheckpointAge]
    split
    · simp only [handleStaleCheckpoint]
      rcases htty with h | h <;> subst h <;> simp
    · next hcond =>
      exfalso
      simp only [Bool.and_eq_true, decide_eq_true_eq] at hcond
      exact hcond ⟨by omega, rfl⟩

/-- C2 (witness): at age 300000 ms (5 minutes) the checkpoint is returned; at
age 601000 ms with no force flag and no stdout TTY the locator fails with a
message containing "10 minutes". -/
theorem validateCheckpointAge_witness :
    validateCheckpointAge "/tmp/cp.json" 300000 false false false "n" = .proceed "/tmp/cp.json"
    ∧ validateCheckpointAge "/tmp/cp.json" 601000 false true false "y" =
      .failure ("Checkpoint is " ++ formatFileAge 601000 ++
        " old. Use --force to proceed or create fresh checkpoint with \"/chat save\".")
    ∧ formatFileAge 601000 = "10 minutes" :=
  ⟨(validateCheckpointAge_spec "/tmp/cp.json" 300000 false false false "n").1 (by omega),
   (validateCheckpointAge_spec "/tmp/cp.json" 601000 false true false "y").2
     (by omega) rfl (Or.inr rfl),
   rfl⟩

/-- C5: during pull context validation, when the recorded original directory
differs from the target, a matching final path segment proceeds without any
prompt, while differing final segments prompt for confirmation and continue
exactly when the answer is "y"/"yes" (declining cancels). -/
theorem validateSessionContext_spec (first : Json) (rest : List Json)
    (origCwd targetDir answer : String)
    (hcwd : first.getField "cwd" = some (.str origCwd))
    (hne : origCwd ≠ "") (hdiff : origCwd ≠ targetDir) :
    (popPathSegment origCwd = popPathSegment targetDir →
      validateSessionContext (first :: rest) targetDir answer = ⟨false, true⟩)
    ∧ (popPathSegment origCwd ≠ popPathSegment targetDir →
      validateSessionContext (first :: rest) targetDir answer = ⟨true, isYesAnswer answer⟩) := by
  constructor
  · intro hseg
    simp [validateSessionContext, hcwd, Json.asString, hne, hdiff, hseg]
  · intro hseg
    simp [validateSessionContext, hcwd, Json.asString, hne, hdiff, hseg]

/-- C5 (witness): original "/a/b/project" with target "/x/y/project" proceeds
without prompting; with target "/x/y/other" the user is prompted and the
answer "n" cancels the pull. -/
theorem validateSessionContext_witness :
    validateSessionContext [Json.obj [("cwd", Json.str "/a/b/project")]]
      "/x/y/project" "n" = ⟨false, true⟩
    ∧ validateSessionContext [Json.obj [("cwd", Json.str "/a/b/project")]]
      "/x/y/other" "n" = ⟨true, false⟩ := by
  constructor
  · exact (validateSessionContext_spec (Json.obj [("cwd", Json.str "/a/b/project")]) []
      "/a/b/project" "/x/y/project" "n" rfl (by decide) (by decide)).1 (by decide)
  · have h := (validateSessionContext_spec (Json.obj [("cwd", Json.str "/a/b/project")]) []
      "/a/b/project" "/x/y/other" "n" rfl (by decide) (by decide)).2 (by decide)
    rw [h]
    rfl

/-- C7 (counterexample): on a checkpoint with one user text message, one model
function call, one user function response and one model text message, the code
computes messageCount 3 (keeping the model function-call entry) while the
spec's "exclude both shapes" prescription would give 2; the tool-call count is
1 as claimed. -/
theorem geminiMessageCount_counterexample :
    geminiMessageCount geminiExampleMessages = 3
    ∧ specGeminiMessageCount geminiExampleMessages = 2
    ∧ geminiMessageCount geminiExampleMessages ≠ specGeminiMessageCount geminiExampleMessages
    ∧ geminiToolCalls geminiExampleMessages = 1 :=
  ⟨rfl, rfl, by decide, rfl⟩

/-- C7 (amended): the Gemini messageCount excludes exactly the user-authored
function-response entries (model-authored function calls remain counted), and
the tool-call count equals the number of model-authored function-call entries. -/
theorem geminiMessageCount_amended (data : List Json) :
    geminiMessageCount data
      + data.countP (fun m => roleIs m "user" && partHasTruthyField m "functionResponse")
      = data.length
    ∧ geminiToolCalls data
      = data.countP (fun m => roleIs m "model" && partHasTruthyField m "functionCall") := by
  constructor
  · unfold geminiMessageCount filterActualMessages
    rw [← List.countP_eq_length_filter]
    have hsplit := List.length_eq_countP_add_countP
      (p := fun m => roleIs m "user" && partHasTruthyField m "functionResponse") (l := data)
    simp only [decide_not, Bool.decide_coe] at hsplit
    omega
  · unfold geminiToolCalls
    rw [← List.countP_eq_length_filter]

/-- C6: a session produced by the Q Chat adapter (platform "q-chat") is spread
wholesale into the q-chat payload with messageCount equal to the history
length, while any other platform's session yields the flat payload with
token/message counts and sessionId/cwd passed through only when present. -/
theorem buildSessionPayload_spec (data : Json) (h : List Json) (s : SessionData)
    (options : PushOptions)
    (hhist : optArrField data "history" = some h)
    (hplat : s.platform ≠ "q-chat") :
    (∃ p, buildSessionPayload (qchatParseSession data) options = .qchat p
       ∧ p.session = qchatParseSession data
       ∧ p.messageCount = h.length
       ∧ p.isPrivate = options.isPrivate)
    ∧ (∃ f, buildSessionPayload s options = .flat f
       ∧ f.messages = s.messages
       ∧ f.tokenCount = s.tokenCount.getD 0
       ∧ f.messageCount = (s.messages.getD []).length
       ∧ f.platform = s.platform
       ∧ (∀ v, f.sessionId = some v → s.sessionId = some v)
       ∧ (∀ v, f.cwd = some v → s.cwd = some v)) := by
  constructor
  · refine ⟨_, rfl, rfl, ?_, rfl⟩
    show (match (qchatParseSession data).history with
          | some hh => hh.length
          | none => 0) = h.length
    have hsame : (qchatParseSession data).history = optArrField data "history" := rfl
    rw [hsame, hhist]
  · simp only [buildSessionPayload]
    rw [if_neg hplat]
    refine ⟨_, rfl, rfl, ?_, ?_, rfl, ?_, ?_⟩
    · cases s.tokenCount <;> rfl
    · cases s.messages <;> rfl
    · intro v hv
      cases hs : s.sessionId with
      | none =>
        rw [hs] at hv
        have hv' : (none : Option String) = some v := hv
        cases hv'
      | some t =>
        rw [hs] at hv
        have hv' : (if t ≠ "" then some t else none) = some v := hv
        rcases eq_or_ne t "" with ht | ht
        · rw [if_neg (by simpa using ht)] at hv'
          cases hv'
        · rw [if_pos ht] at hv'
          injection hv' with hv'
          rw [hv']
    · intro v hv
      cases hs : s.cwd with
      | none =>
        rw [hs] at hv
        have hv' : (none : Option String) = some v := hv
        cases hv'
      | some t =>
        rw [hs] at hv
        have hv' : (if t ≠ "" then some t else none) = some v := hv
        rcases eq_or_ne t "" with ht | ht
        · rw [if_neg (by simpa using ht)] at hv'
          cases hv'
        · rw [if_pos ht] at hv'
          injection hv' with hv'
          rw [hv']

/-- C6 (witness): the example Q Chat row with one history turn builds the
spread payload with messageCount 1, and the example Claude session builds the
flat payload. -/
theorem buildSessionPayload_witness :
    optArrField qchatExampleData "history" = some
      [Json.arr [Json.obj [("content", Json.obj [("Prompt",
         Json.obj [("prompt", Json.str "hi")])])],
       Json.obj [("Response", Json.obj [("content", Json.str "hello")])]]]
    ∧ claudeExampleSession.platform ≠ "q-chat"
    ∧ (∃ p, buildSessionPayload (qchatParseSession qchatExampleData) {} = .qchat p
        ∧ p.messageCount = 1)
    ∧ (∃ f, buildSessionPayload claudeExampleSession {} = .flat f
        ∧ f.messageCount = 2) := by
  refine ⟨rfl, by decide, ?_, ?_⟩
  · obtain ⟨p, hp, _, hmc, _⟩ :=
      (buildSessionPayload_spec qchatExampleData _ claudeExampleSession {} rfl (by decide)).1
    exact ⟨p, hp, hmc⟩
  · obtain ⟨f, hf, _, _, hmc, _, _, _⟩ :=
      (buildSessionPayload_spec qchatExampleData _ claudeExampleSession {} rfl (by decide)).2
    exact ⟨f, hf, hmc⟩

set_option maxRecDepth 8000

/-- C3: content-based auto-detection returns the matching adapter for a valid
file of each supported platform format, and null for files matching none
(validators modelled from the spec, as their implementations are not in src). -/
theorem detectProvider_spec :
    detectProvider claudeFileContent = some .claudeCode
    ∧ detectProvider geminiFileContent = some .geminiCli
    ∧ detectProvider qchatFileContent = some .qchat
    ∧ detectProvider nonSessionContent = none
    ∧ detectProvider "not a session" = none :=
  ⟨rfl, rfl, rfl, rfl, rfl⟩

/-- C10: every provider's listSessions output (the scan results passed through
`sortSessionsByModified`) is a permutation of the scanned sessions sorted in
nondecreasing order of lastModified, uniformly across providers. -/
theorem listSessions_sorted_spec (scanned : List SessionInfo) :
    ((claudeListSessions scanned).Pairwise (fun a b => a.lastModified ≤ b.lastModified)
      ∧ (claudeListSessions scanned).Perm scanned)
    ∧ ((geminiListSessions scanned).Pairwise (fun a b => a.lastModified ≤ b.lastModified)
      ∧ (geminiListSessions scanned).Perm scanned)
    ∧ ((qchatListSessions scanned).Pairwise (fun a b => a.lastModified ≤ b.lastModified)
      ∧ (qchatListSessions scanned).Perm scanned)
    ∧ ((codexListSessions scanned).Pairwise (fun a b => a.lastModified ≤ b.lastModified)
      ∧ (codexListSessions scanned).Perm scanned) := by
  have htrans : ∀ a b c : SessionInfo, sessionLe a b = true → sessionLe b c = true →
      sessionLe a c = true := by
    intro a b c hab hbc
    simp only [sessionLe, decide_eq_true_eq] at *
    omega
  have htotal : ∀ a b : SessionInfo, (sessionLe a b || sessionLe b a) = true := by
    intro a b
    simp only [sessionLe, Bool.or_eq_true, decide_eq_true_eq]
    omega
  have hsorted : (sortSessionsByModified scanned).Pairwise
      (fun a b => a.lastModified ≤ b.lastModified) := by
    have := List.sorted_mergeSort htrans htotal scanned
    exact this.imp (fun hab => by
      simpa [sessionLe, decide_eq_true_eq] using hab)
  have hperm : (sortSessionsByModified scanned).Perm scanned :=
    List.mergeSort_perm scanned sessionLe
  exact ⟨⟨hsorted, hperm⟩, ⟨hsorted, hperm⟩, ⟨hsorted, hperm⟩, ⟨hsorted, hperm⟩⟩

/-- When every line parses, the line loop succeeds and returns one entry per
line. -/
theorem parseJsonlLinesFrom_ok (fp : String) :
    ∀ (lines : List String) (i : Nat), (∀ l ∈ lines, (parseJson l).isSome) →
    ∃ vs, parseJsonlLinesFrom fp i lines = .ok vs ∧ vs.length = lines.length := by
  intro lines
  induction lines with
  | nil => exact fun i _ => ⟨[], rfl, rfl⟩
  | cons line rest ih =>
    intro i hall
    have hline := hall line (List.mem_cons_self _ _)
    obtain ⟨v, hv⟩ := Option.isSome_iff_exists.mp hline
    obtain ⟨vs, hvs, hlen⟩ := ih (i + 1) (fun l hl => hall l (List.mem_cons_of_mem _ hl))
    refine ⟨v :: vs, ?_, by simp [hlen]⟩
    simp only [parseJsonlLinesFrom, hv, hvs]

/-- When some line fails to parse, the line loop throws. -/
theorem parseJsonlLinesFrom_err (fp : String) :
    ∀ (lines : List String) (i : Nat), (∃ l ∈ lines, parseJson l = none) →
    ∃ e, parseJsonlLinesFrom fp i lines = .error e := by
  intro lines
  induction lines with
  | nil =>
    intro i hbad
    obtain ⟨l, hl, _⟩ := hbad
    cases hl
  | cons line rest ih =>
    intro i hbad
    cases hline : parseJson line with
    | none =>
      exact ⟨"Invalid JSON on line " ++ toString (i + 1) ++ " in file " ++ fp,
        by simp only [parseJsonlLinesFrom, hline]⟩
    | some v =>
      obtain ⟨l, hl, hbadl⟩ := hbad
      rcases List.mem_cons.mp hl with rfl | hlrest
      · rw [hline] at hbadl
        cases hbadl
      · obtain ⟨e, he⟩ := ih (i + 1) ⟨l, hlrest, hbadl⟩
        exact ⟨e, by simp only [parseJsonlLinesFrom, hline, he]⟩

/-- C1 (amended): JSONL parsing throws on any malformed line (and on an empty
file) instead of skipping it; only when every non-blank line is valid JSON does
`parseSession` succeed, and then `messageCount` equals the number of lines. -/
theorem claudeParseSession_jsonl_spec (filePath content : String) :
    ((∃ l ∈ jsonlLines content, parseJson l = none) →
      ∃ e, claudeParseSession filePath content = .error e)
    ∧ (jsonlLines content ≠ [] → (∀ l ∈ jsonlLines content, (parseJson l).isSome) →
      ∃ s, claudeParseSession filePath content = .ok s
         ∧ s.messageCount = (jsonlLines content).length)
    ∧ (jsonlLines content = [] → ∃ e, claudeParseSession filePath content = .error e) := by
  refine ⟨?_, ?_, ?_⟩
  · intro hbad
    have hne : (jsonlLines content).length ≠ 0 := by
      obtain ⟨l, hl, _⟩ := hbad
      exact List.length_pos.mpr (List.ne_nil_of_mem hl) |>.ne'
    obtain ⟨e, he⟩ := parseJsonlLinesFrom_err filePath (jsonlLines content) 0 hbad
    refine ⟨e, ?_⟩
    simp only [claudeParseSession, parseJsonlFile, if_neg hne, he]
  · intro hne hall
    have hne' : (jsonlLines content).length ≠ 0 :=
      fun h => hne (List.length_eq_zero.mp h)
    obtain ⟨vs, hvs, hlen⟩ := parseJsonlLinesFrom_ok filePath (jsonlLines content) 0 hall
    refine ⟨⟨vs, vs.length, vs.head?.bind (fun e => e.getField "sessionId"),
      vs.head?.bind (fun e => e.getField "cwd")⟩, ?_, ?_⟩
    · simp only [claudeParseSession, parseJsonlFile, if_neg hne', hvs]
    · exact hlen
  · intro hempty
    refine ⟨"Empty session file: " ++ filePath, ?_⟩
    simp [claudeParseSession, parseJsonlFile, hempty]

/-- C1 (counterexample): with two valid lines around one corrupt line the parse
throws an error naming line 2 — it does not skip the corrupt line and return
messageCount 2. -/
theorem claudeParseSession_corrupt_counterexample :
    claudeParseSession "session.jsonl" corruptJsonlContent =
      .error "Invalid JSON on line 2 in file session.jsonl"
    ∧ (jsonlLines corruptJsonlContent).length = 3
    ∧ ((jsonlLines corruptJsonlContent).countP (fun l => (parseJson l).isSome)) = 2 :=
  ⟨rfl, rfl, rfl⟩

/-- C1 (witness): on a fully valid two-line transcript the parse succeeds with
messageCount 2. -/
theorem claudeParseSession_jsonl_witness :
    (∃ s, claudeParseSession "session.jsonl" validJsonlContent = .ok s
       ∧ s.messageCount = (jsonlLines validJsonlContent).length)
    ∧ (jsonlLines validJsonlContent).length = 2 :=
  ⟨(claudeParseSession_jsonl_spec "session.jsonl" validJsonlContent).2.1
     (by decide) (by decide), rfl⟩

/-- The user message extracted from a turn is the same in either encoded shape:
both are truthy-guarded projections of the turn's user component. -/
theorem extractUserMessage_encodeTurn (legacy : Bool) (u a : Json) :
    optTruthy (extractUserMessage (encodeTurn legacy u a)) = u.truthy
    ∧ (u.truthy = true → extractUserMessage (encodeTurn legacy u a) = some u) := by
  cases legacy with
  | true => exact ⟨rfl, fun _ => rfl⟩
  | false =>
    have hext : extractUserMessage (encodeTurn false u a)
        = (if u.truthy then some u else none) := rfl
    constructor
    · rw [hext]
      cases hu : u.truthy <;> simp [optTruthy, hu]
    · intro hu
      simp [hext, hu]

/-- The metadata fold is insensitive to the per-turn encoding shape. -/
theorem qTurnFold_shape_independent :
    ∀ (ps : List (Json × Json × Bool × Bool)) (count : Nat) (preview : String),
    qTurnFold (ps.map (fun t => encodeTurn t.2.2.1 t.1 t.2.1)) count preview
    = qTurnFold (ps.map (fun t => encodeTurn t.2.2.2 t.1 t.2.1)) count preview := by
  intro ps
  induction ps with
  | nil => intro count preview; rfl
  | cons t rest ih =>
    intro count preview
    obtain ⟨u, a, s₁, s₂⟩ := t
    simp only [List.map_cons, qTurnFold]
    rw [(extractUserMessage_encodeTurn s₁ u a).1, (extractUserMessage_encodeTurn s₂ u a).1]
    cases hu : u.truthy with
    | false => simpa using ih count preview
    | true =>
      rw [(extractUserMessage_encodeTurn s₁ u a).2 hu,
          (extractUserMessage_encodeTurn s₂ u a).2 hu]
      simpa using ih (count + 2) _

/-- The metadata of a conversation is the fold of its history. -/
theorem parseQConversationMetadata_mk (turns : List Json) :
    parseQConversationMetadata (mkConversation turns) = qTurnFold turns 0 "" := by
  simp only [parseQConversationMetadata, mkConversation, Json.getTruthy, Json.getField,
    List.find?]
  rfl

/-- C8: the Q Chat turn parser accepts both the legacy 2-element-array shape
and the named object shape, chosen independently per turn, and semantically
identical turn content yields identical messageCount and firstMessagePreview. -/
theorem qchatTurnShape_equivalence (ps : List (Json × Json × Bool × Bool)) :
    parseQConversationMetadata
      (mkConversation (ps.map (fun t => encodeTurn t.2.2.1 t.1 t.2.1)))
    = parseQConversationMetadata
      (mkConversation (ps.map (fun t => encodeTurn t.2.2.2 t.1 t.2.1))) := by
  rw [parseQConversationMetadata_mk, parseQConversationMetadata_mk]
  exact qTurnFold_shape_independent ps 0 ""

/-! ### Whitespace-collapse machinery for the preview bound/idempotence claim -/

/-- A cons list has no adjacent whitespace when the head is compatible with the
tail's head and the tail itself has no adjacent whitespace. -/
theorem noAdjWS_cons (a : Char) (l : List Char)
    (hhead : ∀ d, l.head? = some d → ¬(isJsWS a = true ∧ isJsWS d = true))
    (hl : noAdjWS l) : noAdjWS (a :: l) := by
  cases l with
  | nil => trivial
  | cons d ds => exact ⟨hhead d rfl, hl⟩

/-- The tail of a no-adjacent-whitespace list keeps the property. -/
theorem noAdjWS_tail {a : Char} {l : List Char} (h : noAdjWS (a :: l)) : noAdjWS l := by
  cases l with
  | nil => trivial
  | cons d ds => exact h.2

/-- Every whitespace character the collapse emits is a plain space. -/
theorem collapseWSAux_ws_space :
    ∀ (l : List Char) (b : Bool), ∀ c ∈ collapseWSAux b l, isJsWS c = true → c = ' ' := by
  intro l
  induction l with
  | nil => intro b c hc; cases hc
  | cons d ds ih =>
    intro b c hc hws
    by_cases hd : isJsWS d = true
    · cases b with
      | true =>
        simp only [collapseWSAux, hd, if_pos] at hc
        exact ih true c hc hws
      | false =>
        simp only [collapseWSAux, hd, if_pos] at hc
        rcases List.mem_cons.mp hc with rfl | hc'
        · rfl
        · exact ih true c hc' hws
    · simp only [collapseWSAux, hd, if_neg, Bool.false_eq_true] at hc
      rcases List.mem_cons.mp hc with rfl | hc'
      · exact absurd hws (by simp [hd])
      · exact ih false c hc' hws

/-- After a whitespace run has been emitted, the next emitted character is not
whitespace. -/
theorem collapseWSAux_true_head :
    ∀ (l : List Char) (c : Char), (collapseWSAux true l).head? = some c → isJsWS c = false := by
  intro l
  induction l with
  | nil => intro c hc; cases hc
  | cons d ds ih =>
    intro c hc
    by_cases hd : isJsWS d = true
    · simp only [collapseWSAux, hd, if_pos] at hc
      exact ih c hc
    · simp only [collapseWSAux, hd, if_neg, Bool.false_eq_true] at hc
      injection hc with hc
      subst hc
      simpa using hd

/-- The collapse output never has two adjacent whitespace characters. -/
theorem collapseWSAux_noAdj : ∀ (l : List Char) (b : Bool), noAdjWS (collapseWSAux b l) := by
  intro l
  induction l with
  | nil => intro b; trivial
  | cons d ds ih =>
    intro b
    by_cases hd : isJsWS d = true
    · cases b with
      | true => simpa only [collapseWSAux, hd, if_pos] using ih true
      | false =>
        simp only [collapseWSAux, hd, if_pos]
        refine noAdjWS_cons ' ' _ ?_ (ih true)
        intro e he hpair
        have := collapseWSAux_true_head ds e he
        simp [this] at hpair
    · simp only [collapseWSAux, hd, if_neg, Bool.false_eq_true]
      refine noAdjWS_cons d _ ?_ (ih false)
      intro e _ hpair
      exact absurd hpair.1 (by simp [hd])

/-- On an already-collapsed list (whitespace is single spaces, none adjacent)
the collapse is the identity. -/
theorem collapseWSAux_eq_self :
    ∀ l : List Char, (∀ c ∈ l, isJsWS c = true → c = ' ') → noAdjWS l →
      collapseWSAux false l = l
      ∧ ((∀ d, l.head? = some d → isJsWS d = false) → collapseWSAux true l = l) := by
  intro l
  induction l with
  | nil => exact fun _ _ => ⟨rfl, fun _ => rfl⟩
  | cons c cs ih =>
    intro hws hadj
    have ihcs := ih (fun d hd => hws d (List.mem_cons_of_mem _ hd)) (noAdjWS_tail hadj)
    constructor
    · by_cases hc : isJsWS c = true
      · have hcsp : c = ' ' := hws c (List.mem_cons_self _ _) hc
        have hcs : collapseWSAux true cs = cs := by
          refine ihcs.2 ?_
          intro d hd
          cases cs with
          | nil => cases hd
          | cons e es =>
            injection hd with hd
            subst hd
            by_contra hws'
            exact hadj.1 ⟨hc, by simpa using hws'⟩
        subst hcsp
        simp [collapseWSAux, hcs, isJsWS]
      · simp [collapseWSAux, hc, ihcs.1]
    · intro hhead
      have hc : isJsWS c = false := hhead c rfl
      simp [collapseWSAux, hc, ihcs.1]

/-- The head of a `dropWhile` result fails the predicate. -/
theorem dropWhile_head_not (p : Char → Bool) :
    ∀ (l : List Char) (c : Char), (l.dropWhile p).head? = some c → p c = false := by
  intro l
  induction l with
  | nil => intro c hc; cases hc
  | cons d ds ih =>
    intro c hc
    by_cases hd : p d = true
    · rw [List.dropWhile_cons_of_pos hd] at hc
      exact ih c hc
    · rw [List.dropWhile_cons_of_neg (by simpa using hd)] at hc
      injection hc with hc
      subst hc
      simpa using hd

/-- The `dropWhile` is the identity when the head already fails the predicate. -/
theorem dropWhile_eq_self_of_head (p : Char → Bool) (l : List Char)
    (h : ∀ d, l.head? = some d → p d = false) : l.dropWhile p = l := by
  cases l with
  | nil => rfl
  | cons d ds => exact List.dropWhile_cons_of_neg (by simp [h d rfl])

/-- A nonempty `dropWhile` result keeps the original last element. -/
theorem dropWhile_getLast? (p : Char → Bool) :
    ∀ l : List Char, l.dropWhile p ≠ [] → (l.dropWhile p).getLast? = l.getLast? := by
  intro l
  induction l with
  | nil => intro h; exact absurd rfl h
  | cons d ds ih =>
    intro hne
    by_cases hd : p d = true
    · rw [List.dropWhile_cons_of_pos hd] at hne ⊢
      have hds : ds ≠ [] := by
        intro h
        rw [h] at hne
        exact hne rfl
      rw [ih hne]
      cases ds with
      | nil => exact absurd rfl hds
      | cons e es => rw [List.getLast?_cons_cons]
    · rw [List.dropWhile_cons_of_neg (by simpa using hd)]

/-- Membership passes through `dropWhile`. -/
theorem mem_dropWhile (p : Char → Bool) :
    ∀ (l : List Char) (c : Char), c ∈ l.dropWhile p → c ∈ l := by
  intro l
  induction l with
  | nil => intro c hc; cases hc
  | cons d ds ih =>
    intro c hc
    by_cases hd : p d = true
    · rw [List.dropWhile_cons_of_pos hd] at hc
      exact List.mem_cons_of_mem _ (ih c hc)
    · rwa [List.dropWhile_cons_of_neg (by simpa using hd)] at hc

/-- Appending one compatible character preserves no-adjacent-whitespace. -/
theorem noAdjWS_append_singleton :
    ∀ (l : List Char) (a : Char), noAdjWS l →
      (∀ d, l.getLast? = some d → ¬(isJsWS d = true ∧ isJsWS a = true)) →
      noAdjWS (l ++ [a]) := by
  intro l
  induction l with
  | nil => intro a _ _; trivial
  | cons c cs ih =>
    intro a hadj hlast
    cases cs with
    | nil => exact ⟨hlast c rfl, trivial⟩
    | cons d ds =>
      refine ⟨hadj.1, ?_⟩
      exact ih a hadj.2 (fun e he => hlast e (by rw [List.getLast?_cons_cons]; exact he))

/-- Reversal preserves no-adjacent-whitespace (the relation is symmetric). -/
theorem noAdjWS_reverse : ∀ l : List Char, noAdjWS l → noAdjWS l.reverse := by
  intro l
  induction l with
  | nil => intro _; trivial
  | cons c cs ih =>
    intro hadj
    rw [List.reverse_cons]
    refine noAdjWS_append_singleton _ c (ih (noAdjWS_tail hadj)) ?_
    intro d hd hpair
    rw [List.getLast?_reverse] at hd
    cases cs with
    | nil => cases hd
    | cons e es =>
      injection hd with hd
      subst hd
      exact hadj.1 ⟨hpair.2, hpair.1⟩

/-- The `dropWhile` preserves no-adjacent-whitespace. -/
theorem noAdjWS_dropWhile (p : Char → Bool) :
    ∀ l : List Char, noAdjWS l → noAdjWS (l.dropWhile p) := by
  intro l
  induction l with
  | nil => intro _; trivial
  | cons c cs ih =>
    intro hadj
    by_cases hc : p c = true
    · rw [List.dropWhile_cons_of_pos hc]
      exact ih (noAdjWS_tail hadj)
    · rwa [List.dropWhile_cons_of_neg (by simpa using hc)]

/-- The `take` preserves no-adjacent-whitespace. -/
theorem noAdjWS_take : ∀ (l : List Char) (n : Nat), noAdjWS l → noAdjWS (l.take n) := by
  intro l
  induction l with
  | nil => intro n _; simp [noAdjWS]
  | cons c cs ih =>
    intro n hadj
    cases n with
    | zero => trivial
    | succ m =>
      rw [List.take_succ_cons]
      refine noAdjWS_cons c _ ?_ (ih m (noAdjWS_tail hadj))
      intro d hd
      cases cs with
      | nil => simp at hd
      | cons e es =>
        cases m with
        | zero => simp at hd
        | succ k =>
          rw [List.take_succ_cons] at hd
          injection hd with hd
          subst hd
          exact hadj.1

/-- Concatenating lists with no adjacent whitespace stays adjacent-free when
the right part starts with non-whitespace. -/
theorem noAdjWS_append_right :
    ∀ (l₁ l₂ : List Char), noAdjWS l₁ → noAdjWS l₂ →
      (∀ d, l₂.head? = some d → isJsWS d = false) → noAdjWS (l₁ ++ l₂) := by
  intro l₁
  induction l₁ with
  | nil => intro l₂ _ h₂ _; simpa using h₂
  | cons c cs ih =>
    intro l₂ h₁ h₂ hhead
    cases cs with
    | nil =>
      refine noAdjWS_cons c l₂ ?_ h₂
      intro d hd hpair
      rw [hhead d hd] at hpair
      exact absurd hpair.2 (by simp)
    | cons d ds =>
      exact ⟨h₁.1, ih l₂ h₁.2 h₂ hhead⟩

/-- The `jsTrimList` is the identity when both ends are non-whitespace. -/
theorem jsTrimList_eq_self (l : List Char)
    (hhead : ∀ d, l.head? = some d → isJsWS d = false)
    (hlast : ∀ d, l.getLast? = some d → isJsWS d = false) : jsTrimList l = l := by
  unfold jsTrimList
  rw [dropWhile_eq_self_of_head isJsWS l hhead]
  rw [dropWhile_eq_self_of_head isJsWS l.reverse
    (fun d hd => hlast d (by rwa [List.head?_reverse] at hd))]
  exact List.reverse_reverse l

/-- Membership passes through `jsTrimList`. -/
theorem mem_jsTrimList (l : List Char) (c : Char) (hc : c ∈ jsTrimList l) : c ∈ l := by
  unfold jsTrimList at hc
  rw [List.mem_reverse] at hc
  have hc₂ := mem_dropWhile isJsWS _ c hc
  rw [List.mem_reverse] at hc₂
  exact mem_dropWhile isJsWS _ c hc₂

/-- The head of a trimmed list is not whitespace. -/
theorem jsTrimList_head (l : List Char) :
    ∀ d, (jsTrimList l).head? = some d → isJsWS d = false := by
  intro d hd
  unfold jsTrimList at hd
  rw [List.head?_reverse] at hd
  have hne : (l.dropWhile isJsWS).reverse.dropWhile isJsWS ≠ [] := by
    intro h
    rw [h] at hd
    cases hd
  rw [dropWhile_getLast? isJsWS _ hne, List.getLast?_reverse] at hd
  exact dropWhile_head_not isJsWS l d hd

/-- The last element of a trimmed list is not whitespace. -/
theorem jsTrimList_getLast (l : List Char) :
    ∀ d, (jsTrimList l).getLast? = some d → isJsWS d = false := by
  intro d hd
  unfold jsTrimList at hd
  rw [List.getLast?_reverse] at hd
  exact dropWhile_head_not isJsWS _ d hd

/-- The `jsTrimList` preserves no-adjacent-whitespace. -/
theorem jsTrimList_noAdj (l : List Char) (h : noAdjWS l) : noAdjWS (jsTrimList l) := by
  unfold jsTrimList
  exact noAdjWS_reverse _ (noAdjWS_dropWhile _ _ (noAdjWS_reverse _ (noAdjWS_dropWhile _ _ h)))

/-- Replacing newlines is the identity on newline-free lists. -/
theorem replaceNewlines_eq_self :
    ∀ l : List Char, (∀ c ∈ l, c ≠ '\n') → replaceNewlines l = l := by
  intro l
  induction l with
  | nil => intro _; rfl
  | cons c cs ih =>
    intro h
    have hc : c ≠ '\n' := h c (List.mem_cons_self _ _)
    simp only [replaceNewlines, List.map_cons, if_neg hc]
    have := ih (fun d hd => h d (List.mem_cons_of_mem _ hd))
    simpa [replaceNewlines] using this

/-- Whitespace in a cleaned list is a plain space. -/
theorem cleanList_ws_space (l : List Char) :
    ∀ c ∈ cleanList l, isJsWS c = true → c = ' ' := by
  intro c hc hws
  unfold cleanList at hc
  exact collapseWSAux_ws_space _ false c (mem_jsTrimList _ c hc) hws

/-- A cleaned list has no adjacent whitespace. -/
theorem cleanList_noAdj (l : List Char) : noAdjWS (cleanList l) :=
  jsTrimList_noAdj _ (collapseWSAux_noAdj _ false)

/-- A cleaned list starts with non-whitespace. -/
theorem cleanList_head (l : List Char) :
    ∀ d, (cleanList l).head? = some d → isJsWS d = false :=
  jsTrimList_head _

/-- A cleaned list ends with non-whitespace. -/
theorem cleanList_getLast (l : List Char) :
    ∀ d, (cleanList l).getLast? = some d → isJsWS d = false :=
  jsTrimList_getLast _

/-- Cleaning a list that satisfies the cleaned-form invariants is the identity. -/
theorem cleanList_eq_self (m : List Char)
    (hws : ∀ c ∈ m, isJsWS c = true → c = ' ')
    (hadj : noAdjWS m)
    (hhead : ∀ d, m.head? = some d → isJsWS d = false)
    (hlast : ∀ d, m.getLast? = some d → isJsWS d = false) : cleanList m = m := by
  unfold cleanList
  have hnn : ∀ c ∈ m, c ≠ '\n' := by
    intro c hc hceq
    subst hceq
    have := hws '\n' hc (by decide)
    cases this
  rw [replaceNewlines_eq_self m hnn]
  show jsTrimList (collapseWSAux false m) = m
  rw [(collapseWSAux_eq_self m hws hadj).1]
  exact jsTrimList_eq_self m hhead hlast

/-- Cleaning is idempotent. -/
theorem cleanList_idem (l : List Char) : cleanList (cleanList l) = cleanList l :=
  cleanList_eq_self _ (cleanList_ws_space l) (cleanList_noAdj l)
    (cleanList_head l) (cleanList_getLast l)

/-- The head of a positive-length take is the head of the list. -/
theorem take_head? (m : List Char) (n : Nat) (hn : 0 < n) :
    (m.take n).head? = m.head? := by
  cases m with
  | nil => simp
  | cons c cs =>
    cases n with
    | zero => cases hn
    | succ k => simp

/-- The truncated-and-suffixed preview text is itself in cleaned form. -/
theorem cleanList_truncated (l : List Char) (h100 : 100 < (cleanList l).length) :
    cleanList ((cleanList l).take 100 ++ ('.' :: '.' :: '.' :: [])) =
      (cleanList l).take 100 ++ ('.' :: '.' :: '.' :: []) := by
  set m := cleanList l with hm
  set t := m.take 100 with ht
  apply cleanList_eq_self
  · intro c hc hws
    rcases List.mem_append.mp hc with hct | hcd
    · exact cleanList_ws_space l c (List.mem_of_mem_take hct) hws
    · exfalso
      have : c = '.' := by
        rcases List.mem_cons.mp hcd with rfl | hcd'
        · rfl
        · rcases List.mem_cons.mp hcd' with rfl | hcd''
          · rfl
          · rcases List.mem_cons.mp hcd'' with rfl | h
            · rfl
            · cases h
      subst this
      cases hws
  · refine noAdjWS_append_right _ _ (noAdjWS_take m 100 (cleanList_noAdj l)) ?_ ?_
    · exact ⟨by decide, by decide, trivial⟩
    · intro d hd
      injection hd with hd
      subst hd
      decide
  · intro d hd
    have htne : t ≠ [] := by
      have : t.length = 100 := by
        rw [ht, List.length_take]
        omega
      intro h
      rw [h] at this
      cases this
    rw [List.head?_append_of_ne_nil _ htne] at hd
    rw [ht, take_head? m 100 (by omega)] at hd
    exact cleanList_head l d hd
  · intro d hd
    have : t ++ ('.' :: '.' :: '.' :: []) = (t ++ ['.', '.']) ++ ['.'] := by
      simp
    rw [this, List.getLast?_concat] at hd
    injection hd with hd
    subst hd
    decide

/-- C4: preview generation is bounded by 103 characters, idempotent, equals the
whitespace-collapsed text exactly when that text fits in 100 characters, and
appends "..." to the 100-character truncation only when it does not. -/
theorem generatePreview_spec (text : String) :
    (generatePreview text).length ≤ 103
    ∧ generatePreview (generatePreview text) = generatePreview text
    ∧ ((collapsedWhitespace text).length ≤ 100 →
        generatePreview text = collapsedWhitespace text)
    ∧ (100 < (collapsedWhitespace text).length →
        (generatePreview text).data
          = (collapsedWhitespace text).data.take 100 ++ ("...").data) := by
  have hdata : (collapsedWhitespace text).data = cleanList text.data := rfl
  have hlen : (collapsedWhitespace text).length = (cleanList text.data).length := rfl
  by_cases hle : (cleanList text.data).length ≤ 100
  · have hgp : generatePreview text = ⟨cleanList text.data⟩ := by
      simp only [generatePreview, if_pos hle]
    refine ⟨?_, ?_, ?_, ?_⟩
    · rw [hgp]
      show (cleanList text.data).length ≤ 103
      omega
    · rw [hgp]
      have hclean : cleanList (cleanList text.data) = cleanList text.data :=
        cleanList_idem text.data
      simp only [generatePreview, hclean, if_pos hle]
    · intro _
      rw [hgp]
      rfl
    · intro hgt
      rw [hlen] at hgt
      omega
  · push_neg at hle
    have hgp : generatePreview text
        = ⟨(cleanList text.data).take 100 ++ ("...").data⟩ := by
      simp only [generatePreview, if_neg (by omega : ¬(cleanList text.data).length ≤ 100)]
    have hdots : ("...").data = ('.' :: '.' :: '.' :: []) := rfl
    have htlen : ((cleanList text.data).take 100).length = 100 := by
      rw [List.length_take]
      omega
    refine ⟨?_, ?_, ?_, ?_⟩
    · rw [hgp]
      show ((cleanList text.data).take 100 ++ ("...").data).length ≤ 103
      rw [List.length_append, htlen]
      decide
    · rw [hgp]
      have hcleant : cleanList ((cleanList text.data).take 100 ++ ("...").data)
          = (cleanList text.data).take 100 ++ ("...").data := by
        rw [hdots]
        exact cleanList_truncated text.data hle
      have houtlen : ((cleanList text.data).take 100 ++ ("...").data).length = 103 := by
        rw [List.length_append, htlen]
        rfl
      simp only [generatePreview, hcleant, houtlen,
        if_neg (by omega : ¬(103 : Nat) ≤ 100)]
      have : ((cleanList text.data).take 100 ++ ("...").data).take 100
          = (cleanList text.data).take 100 := by
        have := List.take_left ((cleanList text.data).take 100) (("...").data)
        rwa [htlen] at this
      rw [this]
    · intro hc
      rw [hlen] at hc
      omega
    · intro _
      rw [hgp, hdata]

/-- C4 (witness): a short messy text collapses exactly, and a 150-character
text is truncated to 100 characters plus "...". -/
theorem generatePreview_witness :
    ((collapsedWhitespace "  hello   world\n\n  again  ").length ≤ 100
      ∧ generatePreview "  hello   world\n\n  again  "
        = collapsedWhitespace "  hello   world\n\n  again  ")
    ∧ (100 < (collapsedWhitespace (String.mk (List.replicate 150 'a'))).length
      ∧ (generatePreview (String.mk (List.replicate 150 'a'))).data
        = (collapsedWhitespace (String.mk (List.replicate 150 'a'))).data.take 100
          ++ ("...").data) :=
  ⟨⟨by decide, (generatePreview_spec "  hello   world\n\n  again  ").2.2.1 (by decide)⟩,
   ⟨by decide, (generatePreview_spec (String.mk (List.replicate 150 'a'))).2.2.2 (by decide)⟩⟩

end SessionBase
